import Mathlib

/-!
Verification of the forwarding decision pipeline and text-replacement engine
of `src/bot.py` (class `TelegramForwarderBot`), via a shallow embedding.

Strings are Lean `String`s; the engine core works on `List Char`.
The Python `re` behaviour used by `apply_replacements` is modelled for the
ASCII fragment actually exercised by the configuration data:
* `\b`-bracketed, `re.escape`d literal patterns with `re.IGNORECASE`
  (so matching is a case-insensitive literal scan guarded by word
  boundaries, a word character being `[A-Za-z0-9_]`);
* `re.sub` replacement-template compilation, which happens once per `sub`
  call, before scanning, and raises on invalid escapes (e.g. a reference
  to a non-existent group) even when the pattern never matches.
Recursive scanners take an explicit fuel argument (always called with fuel
at least the length of the scanned list) so that they are structurally
recursive and kernel-reducible.
-/

namespace Forwarder

/-! ### Character model: Python `\w`, lower-casing for `re.IGNORECASE` -/

/-- ASCII code of a word character for `\b` / `\w`: `[A-Za-z0-9_]`. -/
def isWordCode (n : Nat) : Bool :=
  decide ((48 ≤ n ∧ n ≤ 57) ∨ (65 ≤ n ∧ n ≤ 90) ∨ (97 ≤ n ∧ n ≤ 122) ∨ n = 95)

/-- ASCII lower-casing on character codes, modelling `str.lower()` /
`re.IGNORECASE` folding for the ASCII range. -/
def lowCode (n : Nat) : Nat :=
  if 65 ≤ n ∧ n ≤ 90 then n + 32 else n

def isWordChar (c : Char) : Bool := isWordCode c.toNat

/-- ASCII lower-casing of a character (`str.lower()` on the ASCII range). -/
def lowerChar (c : Char) : Char :=
  if 65 ≤ c.toNat ∧ c.toNat ≤ 90 then Char.ofNat (c.toNat + 32) else c

/-- ASCII model of Python `str.lower()`. -/
def lowerStr (s : String) : String := String.mk (s.data.map lowerChar)

/-- Truth value of `\w` at an optional character (absent = out of string). -/
def optWord : Option Char → Bool
  | some c => isWordChar c
  | none => false

/-- `\b` holds between two (optional) characters iff exactly one side is a
word character. -/
def isBoundary (a b : Option Char) : Bool := optWord a != optWord b

/-- Case-insensitive equality of character lists (ASCII fold), modelling a
literal match under `re.IGNORECASE`. -/
def eqIgnoreCase (a b : List Char) : Bool :=
  (a.map fun c => lowCode c.toNat) == (b.map fun c => lowCode c.toNat)

/-! ### Python `str.replace` (used by the links and sentences stages) -/

/-- Left-to-right, non-overlapping literal replacement of `old` by `new`;
scanning core, for non-empty `old`.  Fuel is the scanned list's length. -/
def replaceAux (old new : List Char) : Nat → List Char → List Char
  | 0, s => s
  | _ + 1, [] => []
  | fuel + 1, c :: cs =>
    if old ≠ [] ∧ old.isPrefixOf (c :: cs) then
      new ++ replaceAux old new fuel (cs.drop (old.length - 1))
    else
      c :: replaceAux old new fuel cs

/-- Python `s.replace(old, new)`.  An empty `old` inserts `new` between all
characters and at both ends, as CPython does. -/
def pyReplace (s old new : List Char) : List Char :=
  if old = [] then new ++ s.flatMap (fun c => c :: new)
  else replaceAux old new s.length s

/-- `old` occurs as a contiguous substring of the second argument. -/
def containsL (old : List Char) : List Char → Bool
  | [] => old.isEmpty
  | c :: cs => old.isPrefixOf (c :: cs) || containsL old cs

/-! ### `re.sub` replacement templates -/

/-- A compiled replacement template: literal chunks and whole-match
(`\g<0>`) references. -/
inductive TemplItem where
  | lit (s : List Char)
  | group0
deriving DecidableEq

def isOctalDigit (c : Char) : Bool := decide ('0' ≤ c ∧ c ≤ '7')

/-- Template compilation, modelling CPython's replacement-string parsing for
a pattern with zero capture groups: `\\`, `\n`, `\t`, `\r`, `\a`, `\b`,
`\f`, `\v` are character escapes, `\0` (with up to two further octal
digits) is an octal escape, `\1`..`\9` are invalid group references
(an error, as the pattern has no groups), `\g<0>` is the whole match,
other escaped ASCII letters are errors, and other escaped characters are
kept verbatim together with the backslash.  Fuel is the list's length. -/
def parseTemplAux : Nat → List Char → Except Unit (List TemplItem)
  | 0, _ => .ok []
  | _ + 1, [] => .ok []
  | fuel + 1, e :: rest =>
    if e = '\\' then
      match rest with
      | [] => .error ()
      | c :: cs =>
        if c = '\\' then (parseTemplAux fuel cs).map (TemplItem.lit ['\\'] :: ·)
        else if c = 'n' then (parseTemplAux fuel cs).map (TemplItem.lit ['\n'] :: ·)
        else if c = 't' then (parseTemplAux fuel cs).map (TemplItem.lit ['\t'] :: ·)
        else if c = 'r' then (parseTemplAux fuel cs).map (TemplItem.lit ['\r'] :: ·)
        else if c = 'a' then (parseTemplAux fuel cs).map (TemplItem.lit ['\x07'] :: ·)
        else if c = 'b' then (parseTemplAux fuel cs).map (TemplItem.lit ['\x08'] :: ·)
        else if c = 'f' then (parseTemplAux fuel cs).map (TemplItem.lit ['\x0C'] :: ·)
        else if c = 'v' then (parseTemplAux fuel cs).map (TemplItem.lit ['\x0B'] :: ·)
        else if c = '0' then
          let ds := (cs.takeWhile isOctalDigit).take 2
          let v := ds.foldl (fun a d => a * 8 + (d.toNat - 48)) 0
          (parseTemplAux fuel (cs.drop ds.length)).map (TemplItem.lit [Char.ofNat v] :: ·)
        else if c.isDigit then .error ()
        else if c = 'g' then
          match cs with
          | '<' :: cs2 =>
            let ds := cs2.takeWhile Char.isDigit
            match cs2.drop ds.length with
            | '>' :: cs3 =>
              if ds ≠ [] ∧ ds.all (· = '0') then
                (parseTemplAux fuel cs3).map (TemplItem.group0 :: ·)
              else .error ()
            | _ => .error ()
          | _ => .error ()
        else if c.isAlpha then .error ()
        else (parseTemplAux fuel cs).map (TemplItem.lit ['\\', c] :: ·)
    else (parseTemplAux fuel rest).map (TemplItem.lit [e] :: ·)

def parseTempl (s : List Char) : Except Unit (List TemplItem) :=
  parseTemplAux s.length s

/-- Expansion of a compiled template at a given matched text. -/
def expandTempl (tmpl : List TemplItem) (matched : List Char) : List Char :=
  tmpl.flatMap fun it =>
    match it with
    | .lit s => s
    | .group0 => matched

/-! ### `re.sub(r'\b' + re.escape(old) + r'\b', new, text, re.IGNORECASE)` -/

/-- The pattern `\b old \b` matches at the start of `s` (with `prev` the
character just before `s`, if any): `old` is non-empty, a case-insensitive
literal prefix of `s`, and `\b` holds on both sides of the matched text. -/
def wordMatchAt (old : List Char) (prev : Option Char) (s : List Char) : Bool :=
  !old.isEmpty && decide (old.length ≤ s.length) &&
    eqIgnoreCase (s.take old.length) old &&
    isBoundary prev s.head? &&
    isBoundary (s.take old.length).getLast? (s.drop old.length).head?

/-- The `re.sub` scan: left-to-right, replacing each leftmost match and
resuming after it.  For an empty `old` the pattern `\b\b` matches
zero-width at every word boundary and the scanner advances one character
after each empty match, as CPython does.  Fuel is the list's length + 1
(the extra unit covers the zero-width match at end of string). -/
def scanAux (old : List Char) (tmpl : List TemplItem) :
    Nat → Option Char → List Char → List Char
  | 0, _, s => s
  | _ + 1, prev, [] =>
    if old.isEmpty && isBoundary prev none then expandTempl tmpl [] else []
  | fuel + 1, prev, c :: cs =>
    if old.isEmpty then
      if isBoundary prev (some c) then
        expandTempl tmpl [] ++ c :: scanAux old tmpl fuel (some c) cs
      else
        c :: scanAux old tmpl fuel (some c) cs
    else if wordMatchAt old prev (c :: cs) then
      expandTempl tmpl ((c :: cs).take old.length) ++
        scanAux old tmpl fuel ((c :: cs).take old.length).getLast?
          ((c :: cs).drop old.length)
    else
      c :: scanAux old tmpl fuel (some c) cs

def reSubWord (old : List Char) (tmpl : List TemplItem) (s : List Char) : List Char :=
  scanAux old tmpl (s.length + 1) none s

/-- Existence of a `\b old \b` match anywhere in `s` (at any position, with
the correct preceding character).  Fuel as in `scanAux`. -/
def hasMatchAux (old : List Char) : Nat → Option Char → List Char → Bool
  | 0, _, _ => false
  | _ + 1, prev, [] => old.isEmpty && isBoundary prev none
  | fuel + 1, prev, c :: cs =>
    (if old.isEmpty then isBoundary prev (some c)
     else wordMatchAt old prev (c :: cs)) || hasMatchAux old fuel (some c) cs

def hasWordMatch (old s : List Char) : Bool :=
  hasMatchAux old (s.length + 1) none s

/-! ### Sorting pairs by descending key length
(`sorted(items, key=lambda item: len(item[0]), reverse=True)`, a stable
sort: equal-length keys keep their original relative order). -/

def insertByLen (p : String × String) :
    List (String × String) → List (String × String)
  | [] => [p]
  | q :: qs =>
    if q.1.length ≤ p.1.length then p :: q :: qs else q :: insertByLen p qs

def sortByLenDesc : List (String × String) → List (String × String)
  | [] => []
  | p :: rest => insertByLen p (sortByLenDesc rest)

/-! ### The three stages of `apply_replacements` -/

/-- A ruleset: the three category mappings of `config.replacements`, each an
association list in insertion order. -/
structure Replacements where
  links : List (String × String)
  words : List (String × String)
  sentences : List (String × String)
deriving DecidableEq

/-- Stage 1: `modified_text.replace(old_link, new_link)` over the `links`
mapping in insertion order. -/
def runLinks (links : List (String × String)) (t : List Char) : List Char :=
  links.foldl (fun acc p => pyReplace acc p.1.data p.2.data) t

/-- Stage 2 core: one `re.sub` per word pair, in the given order; the
template is compiled before scanning, and a compilation error aborts the
stage (modelling the raised `re.error`). -/
def runWords : List (String × String) → List Char → Except Unit (List Char)
  | [], t => .ok t
  | (o, n) :: rest, t =>
    match parseTempl n.data with
    | .error e => .error e
    | .ok tmpl => runWords rest (reSubWord o.data tmpl t)

/-- Stage 3: `modified_text.replace(old_sentence, new_sentence)` over the
`sentences` mapping, sorted by descending key length. -/
def runSentences (sentences : List (String × String)) (t : List Char) : List Char :=
  (sortByLenDesc sentences).foldl (fun acc p => pyReplace acc p.1.data p.2.data) t

/-- The body of the `try` block of `apply_replacements`: links, then words
(sorted by descending key length), then sentences; the only fallible stage
is the word stage. -/
def applyStages (text : String) (r : Replacements) : Except Unit (List Char) :=
  match runWords (sortByLenDesc r.words) (runLinks r.links text.data) with
  | .error e => .error e
  | .ok t => .ok (runSentences r.sentences t)

/-- `TelegramForwarderBot.apply_replacements` (src/bot.py:116-146): empty
text is returned as-is; otherwise the three stages run, and any fault makes
the whole call return the original, unmodified input. -/
def apply_replacements (text : String) (r : Replacements) : String :=
  if text = "" then text
  else
    match applyStages text r with
    | .ok t => String.mk t
    | .error _ => text

/-! ### Channel matcher (src/bot.py:313-328) -/

/-- `source.lstrip('@')`: strip all leading `@` sigils. -/
def lstripAt (s : String) : String := String.mk (s.data.dropWhile (· = '@'))

/-- One iteration of the source-channel loop: the post matches the entry iff
its numeric id (as a string) equals the stripped entry literally, or its
handle equals the stripped entry case-insensitively. -/
def channelEntryMatches (channelId username : String) (source : String) : Bool :=
  let ns := lstripAt source
  channelId == ns || lowerStr username == lowerStr ns

/-- The whole loop over `config.source_channels`, short-circuiting on the
first match. -/
def is_source_channel (channelId username : String) (sources : List String) : Bool :=
  sources.any (channelEntryMatches channelId username)

/-- `cmd_add_channel` (src/bot.py:711-730) normalisation of the argument:
one leading `@`, if present, is removed before storing. -/
def add_channel_normalize (arg : String) : String :=
  match arg.data with
  | '@' :: rest => String.mk rest
  | _ => arg

/-! ### Forwarding decider (src/bot.py:303-397) -/

/-- One element of a Telegram `photo` array (`{"file_id": ...}`); the array
is ordered smallest-to-largest resolution. -/
structure PhotoSize where
  file_id : String
deriving DecidableEq

/-- The fields of an inbound channel post that the decider reads.  An absent
JSON field is `none` (resp. `[]` for the photo array); `post["chat"]` gives
the numeric id (stringified) and the optional username. -/
structure Post where
  chat_id : String
  chat_username : Option String
  message_id : Nat
  text : Option String
  caption : Option String
  photo : List PhotoSize
  video : Option String
  document : Option String
  animation : Option String
deriving DecidableEq

/-- The configuration snapshot read at decision time. -/
structure BotConfig where
  source_channels : List String
  target_channel : String
  replacements : Replacements
  forwarding_enabled : Bool

/-- The relay directive chosen per post, or a tagged suppression.  Each
constructor records the parameters of the corresponding Bot API call. -/
inductive Decision where
  | suppressed (reason : String)
  | copyMessage (captionOverride : Option String)
  | sendMessage (text : String)
  | sendPhoto (file_id : String) (caption : String)
  | sendVideo (file_id : String) (caption : String)
  | sendDocument (file_id : String) (caption : String)
deriving DecidableEq

/-- `forward_channel_message` (src/bot.py:336-397): apply replacements to
text and caption, then dispatch on media kind in source order
(photo, video, document, animation, text-only, other).  `post.get("x", "")`
is `getD ""`; Python truthiness of the resulting string is `≠ ""`, and of
the photo array is `≠ []`.  `post["photo"][-1]` is the last (largest)
variant. -/
def forward_channel_message (cfg : BotConfig) (post : Post) : Decision :=
  let original_text := post.text.getD ""
  let original_caption := post.caption.getD ""
  let new_text := apply_replacements original_text cfg.replacements
  let new_caption := apply_replacements original_caption cfg.replacements
  let text_modified := new_text ≠ original_text
  let caption_modified := new_caption ≠ original_caption
  if post.photo ≠ [] then
    if caption_modified then
      Decision.sendPhoto (post.photo.getLastD ⟨""⟩).file_id new_caption
    else Decision.copyMessage none
  else if post.video.isSome then
    if caption_modified then Decision.sendVideo (post.video.getD "") new_caption
    else Decision.copyMessage none
  else if post.document.isSome then
    if caption_modified then Decision.sendDocument (post.document.getD "") new_caption
    else Decision.copyMessage none
  else if post.animation.isSome then
    if caption_modified then Decision.sendDocument (post.animation.getD "") new_caption
    else Decision.copyMessage none
  else if original_text ≠ "" then
    if text_modified then Decision.sendMessage new_text
    else Decision.copyMessage none
  else
    if original_caption ≠ "" ∧ caption_modified then
      Decision.copyMessage (some new_caption)
    else Decision.copyMessage none

/-- `handle_channel_post` (src/bot.py:303-334): the three preconditions are
checked in order — forwarding enabled, target set, post's channel in the
source set — each early exit modelled as a distinct tagged suppression
(the code logs and returns without relaying); then the media dispatch
runs.  `post["chat"].get("username", "")` is `getD ""`. -/
def handle_channel_post (cfg : BotConfig) (post : Post) : Decision :=
  if cfg.forwarding_enabled = false then Decision.suppressed "disabled"
  else if cfg.target_channel = "" then Decision.suppressed "no_target"
  else if is_source_channel post.chat_id (post.chat_username.getD "")
      cfg.source_channels = false then
    Decision.suppressed "not_source"
  else forward_channel_message cfg post

/-! ### Sample data used by concrete instances -/

/-- A ruleset whose word stage faults: `"\1"` is an invalid group reference
for a pattern with no groups, so `re.sub` raises and the whole apply call
degrades to identity — even though the links stage already changed the
text. -/
def faultyRules : Replacements := ⟨[("x", "y")], [("a", "\\1")], []⟩

/-- A one-word ruleset. -/
def wordRules : Replacements := ⟨[], [("hello", "hi")], []⟩

/-- A photo post (photo array ordered smallest-to-largest) with a caption
that the word rule rewrites. -/
def samplePhoto : Post :=
  { chat_id := "1", chat_username := some "newsch", message_id := 7,
    text := none, caption := some "hello x",
    photo := [⟨"small"⟩, ⟨"big"⟩], video := none, document := none,
    animation := none }

/-- A post with no recognized media and no text (e.g. a sticker), carrying a
caption that the word rule rewrites. -/
def sampleSticker : Post :=
  { chat_id := "1", chat_username := some "newsch", message_id := 8,
    text := none, caption := some "hello x",
    photo := [], video := none, document := none, animation := none }

/-- A fully enabled configuration recognizing `samplePhoto`'s channel. -/
def sampleCfg : BotConfig :=
  { source_channels := ["1"], target_channel := "t",
    replacements := wordRules, forwarding_enabled := true }

/-- The same configuration with forwarding disabled. -/
def disabledCfg : BotConfig :=
  { sampleCfg with forwarding_enabled := false }

/-! ### Model-fidelity checks, matching CPython behaviour on the same
inputs: link replacement is literal and case-sensitive, sentence
replacement is case-sensitive, `\g<0>` inserts the matched (original-case)
text, the empty pattern `\b\b` matches zero-width at every boundary, and
`str.replace` with an empty key interleaves. -/

example : apply_replacements "Visit old.com now" ⟨[("old.com", "new.com")], [], []⟩ =
    "Visit new.com now" := by decide
example : apply_replacements "Visit OLD.com now" ⟨[("old.com", "new.com")], [], []⟩ =
    "Visit OLD.com now" := by decide
example : apply_replacements "Good Morning team" ⟨[], [], [("Good Morning", "Hi")]⟩ =
    "Hi team" := by decide
example : apply_replacements "good morning team" ⟨[], [], [("Good Morning", "Hi")]⟩ =
    "good morning team" := by decide
example :
    (match parseTempl "X\\g<0>Y".data with
      | .ok tmpl => reSubWord "car".data tmpl "a CAR b".data
      | .error _ => []) = "a XCARY b".data := rfl
example :
    (match parseTempl "-".data with
      | .ok tmpl => reSubWord "".data tmpl "ab cd".data
      | .error _ => []) = "-ab- -cd-".data := rfl
example : pyReplace "abc".data "".data "X".data = "XaXbXcX".data := by decide
example : apply_replacements "" ⟨[("", "Z")], [], []⟩ = "" := by decide

/-! ### Helper lemmas: the stable descending sort -/

theorem mem_insertByLen {p q : String × String} {l : List (String × String)} :
    q ∈ insertByLen p l ↔ q = p ∨ q ∈ l := by
  induction l with
  | nil => simp [insertByLen]
  | cons a as ih =>
    by_cases h : a.1.length ≤ p.1.length
    · simp [insertByLen, h]
    · simp [insertByLen, h, ih]
      tauto

theorem mem_sortByLenDesc {q : String × String} {l : List (String × String)} :
    q ∈ sortByLenDesc l ↔ q ∈ l := by
  induction l with
  | nil => simp [sortByLenDesc]
  | cons a as ih => simp [sortByLenDesc, mem_insertByLen, ih]

theorem pairwise_insertByLen {p : String × String} {l : List (String × String)}
    (h : l.Pairwise fun a b => b.1.length ≤ a.1.length) :
    (insertByLen p l).Pairwise fun a b => b.1.length ≤ a.1.length := by
  induction l with
  | nil => simp [insertByLen]
  | cons a as ih =>
    rw [List.pairwise_cons] at h
    by_cases hle : a.1.length ≤ p.1.length
    · rw [insertByLen, if_pos hle, List.pairwise_cons]
      refine ⟨?_, List.pairwise_cons.mpr h⟩
      intro x hx
      rcases List.mem_cons.mp hx with rfl | hx
      · exact hle
      · exact le_trans (h.1 x hx) hle
    · rw [insertByLen, if_neg hle, List.pairwise_cons]
      refine ⟨?_, ih h.2⟩
      intro x hx
      rcases mem_insertByLen.mp hx with rfl | hx
      · omega
      · exact h.1 x hx

theorem pairwise_sortByLenDesc (l : List (String × String)) :
    (sortByLenDesc l).Pairwise fun a b => b.1.length ≤ a.1.length := by
  induction l with
  | nil => simp [sortByLenDesc]
  | cons a as ih => exact pairwise_insertByLen ih

/-! ### Helper lemmas: literal replacement is the identity when the key
does not occur -/

theorem containsL_nil (s : List Char) : containsL [] s = true := by
  induction s with
  | nil => rfl
  | cons c cs ih => simp [containsL]

theorem replaceAux_of_not_contains {old s : List Char} (new : List Char) (fuel : Nat)
    (h : containsL old s = false) : replaceAux old new fuel s = s := by
  induction fuel generalizing s with
  | zero => rfl
  | succ fuel ih =>
    cases s with
    | nil => rfl
    | cons c cs =>
      rw [containsL, Bool.or_eq_false_iff] at h
      rw [replaceAux, if_neg, ih h.2]
      intro hcond
      rw [h.1] at hcond
      exact Bool.false_ne_true hcond.2

theorem pyReplace_of_not_contains {old s : List Char} (new : List Char)
    (h : containsL old s = false) : pyReplace s old new = s := by
  have hne : old ≠ [] := by
    rintro rfl
    rw [containsL_nil] at h
    simp at h
  rw [pyReplace, if_neg hne, replaceAux_of_not_contains _ _ h]

theorem foldRepl_id {ps : List (String × String)} {t : List Char}
    (h : ∀ p ∈ ps, containsL p.1.data t = false) :
    ps.foldl (fun acc p => pyReplace acc p.1.data p.2.data) t = t := by
  induction ps with
  | nil => rfl
  | cons p ps ih =>
    rw [List.foldl_cons, pyReplace_of_not_contains _ (h p (by simp))]
    exact ih fun q hq => h q (by simp [hq])

theorem runLinks_id {links : List (String × String)} {t : List Char}
    (h : ∀ p ∈ links, containsL p.1.data t = false) : runLinks links t = t :=
  foldRepl_id h

theorem runSentences_id {sentences : List (String × String)} {t : List Char}
    (h : ∀ p ∈ sentences, containsL p.1.data t = false) :
    runSentences sentences t = t :=
  foldRepl_id fun q hq => h q (mem_sortByLenDesc.mp hq)

/-! ### Helper lemmas: the `re.sub` scan is the identity when the pattern
has no match -/

theorem scanAux_of_no_match {old : List Char} (tmpl : List TemplItem)
    (fuel : Nat) (prev : Option Char) (s : List Char)
    (h : hasMatchAux old fuel prev s = false) :
    scanAux old tmpl fuel prev s = s := by
  induction fuel generalizing prev s with
  | zero => rfl
  | succ fuel ih =>
    cases s with
    | nil =>
      rw [hasMatchAux] at h
      rw [scanAux, if_neg]
      rw [h]
      exact Bool.false_ne_true
    | cons c cs =>
      rw [hasMatchAux, Bool.or_eq_false_iff] at h
      obtain ⟨h1, h2⟩ := h
      by_cases he : old.isEmpty
      · rw [if_pos he] at h1
        rw [scanAux, if_pos he, if_neg, ih _ _ h2]
        rw [h1]
        exact Bool.false_ne_true
      · rw [if_neg he] at h1
        rw [scanAux, if_neg he, if_neg, ih _ _ h2]
        rw [h1]
        exact Bool.false_ne_true

theorem reSubWord_of_no_match {old s : List Char} (tmpl : List TemplItem)
    (h : hasWordMatch old s = false) : reSubWord old tmpl s = s :=
  scanAux_of_no_match tmpl _ none s h

/-! ### Helper lemmas: the word stage -/

theorem runWords_ok_tmpl {ps : List (String × String)} {t u : List Char}
    (h : runWords ps t = .ok u) :
    ∀ p ∈ ps, ∃ tmpl, parseTempl p.2.data = .ok tmpl := by
  induction ps generalizing t with
  | nil => simp
  | cons p ps ih =>
    obtain ⟨o, n⟩ := p
    intro q hq
    rw [runWords] at h
    cases hp : parseTempl n.data with
    | error e => rw [hp] at h; exact absurd h (by simp)
    | ok tmpl =>
      rw [hp] at h
      rcases List.mem_cons.mp hq with rfl | hq
      · exact ⟨tmpl, hp⟩
      · exact ih h q hq

theorem runWords_id {ps : List (String × String)} {t : List Char}
    (hp : ∀ p ∈ ps, ∃ tmpl, parseTempl p.2.data = .ok tmpl)
    (hm : ∀ p ∈ ps, hasWordMatch p.1.data t = false) :
    runWords ps t = .ok t := by
  induction ps with
  | nil => rfl
  | cons p ps ih =>
    obtain ⟨o, n⟩ := p
    obtain ⟨tmpl, htm⟩ := hp _ (List.mem_cons_self _ _)
    rw [runWords, htm]
    show runWords ps (reSubWord o.data tmpl t) = Except.ok t
    rw [reSubWord_of_no_match tmpl (hm _ (List.mem_cons_self _ _))]
    exact ih (fun q hq => hp q (by simp [hq])) (fun q hq => hm q (by simp [hq]))

/-! ### Helper lemmas: a backslash-free template compiles to itself and
expands verbatim -/

theorem parseTemplAux_no_backslash {s : List Char} {fuel : Nat}
    (hf : s.length ≤ fuel) (h : '\\' ∉ s) :
    parseTemplAux fuel s = .ok (s.map fun c => TemplItem.lit [c]) := by
  induction fuel generalizing s with
  | zero =>
    cases s with
    | nil => rfl
    | cons c cs => simp at hf
  | succ fuel ih =>
    cases s with
    | nil => rfl
    | cons c cs =>
      have hc : ¬(c = '\\') := fun hh => h (by simp [hh])
      have hcs : '\\' ∉ cs := fun hm => h (List.mem_cons_of_mem _ hm)
      have hfs : cs.length ≤ fuel := by simp at hf; omega
      simp only [parseTemplAux, if_neg hc, ih hfs hcs, Except.map]
      rfl

theorem parseTempl_no_backslash {s : List Char} (h : '\\' ∉ s) :
    parseTempl s = .ok (s.map fun c => TemplItem.lit [c]) :=
  parseTemplAux_no_backslash (Nat.le_refl _) h

theorem expandTempl_map_lit (s matched : List Char) :
    expandTempl (s.map fun c => TemplItem.lit [c]) matched = s := by
  induction s with
  | nil => rfl
  | cons c cs ih => simp only [List.map_cons, expandTempl, List.flatMap_cons] at *; simp [ih]

/-! ### Helper lemmas: word characters and case folding -/

theorem isWordCode_lowCode {a b : Nat} (h : lowCode a = lowCode b) :
    isWordCode a = isWordCode b := by
  unfold lowCode at h
  unfold isWordCode
  rw [decide_eq_decide]
  split at h <;> split at h <;> omega

/-- A `\b old \b` match whose key ends in a non-word character is always
followed by a word character: the trailing boundary cannot be satisfied at
end of input or before a non-word character. -/
theorem wordMatchAt_trailing {old : List Char} {prev : Option Char}
    {s : List Char} {c : Char}
    (hlast : old.getLast? = some c) (hw : isWordChar c = false)
    (hm : wordMatchAt old prev s = true) :
    ∃ d, (s.drop old.length).head? = some d ∧ isWordChar d = true := by
  rw [wordMatchAt] at hm
  simp only [Bool.and_eq_true] at hm
  obtain ⟨⟨⟨⟨h1, h2⟩, h3⟩, _⟩, h5⟩ := hm
  have h2' : old.length ≤ s.length := of_decide_eq_true h2
  have hne : old ≠ [] := by
    intro hh
    rw [hh] at h1
    simp at h1
  have htake : s.take old.length ≠ [] := by
    rw [Ne, List.take_eq_nil_iff]
    push_neg
    constructor
    · simpa [List.length_eq_zero] using hne
    · intro hh
      rw [hh] at h2'
      simp [List.length_eq_zero] at h2'
      exact hne h2'
  obtain ⟨m, hmlast⟩ : ∃ m, (s.take old.length).getLast? = some m := by
    cases hml : (s.take old.length).getLast? with
    | none => exact absurd (List.getLast?_eq_none_iff.mp hml) htake
    | some m => exact ⟨m, rfl⟩
  have hcode : lowCode m.toNat = lowCode c.toNat := by
    have hmap : (s.take old.length).map (fun x => lowCode x.toNat) =
        old.map (fun x => lowCode x.toNat) := by
      rw [eqIgnoreCase] at h3
      exact eq_of_beq h3
    have := congrArg List.getLast? hmap
    rw [List.getLast?_map, List.getLast?_map, hmlast, hlast] at this
    simpa using this
  have hmword : isWordChar m = false := by
    rw [isWordChar, isWordCode_lowCode hcode]
    exact hw
  rw [isBoundary, hmlast] at h5
  cases hnext : (s.drop old.length).head? with
  | none =>
    rw [hnext] at h5
    simp [optWord, hmword] at h5
  | some d =>
    rw [hnext] at h5
    refine ⟨d, rfl, ?_⟩
    simp only [optWord, hmword, bne_iff_ne, Ne] at h5
    cases hd : isWordChar d with
    | true => rfl
    | false => rw [hd] at h5; exact absurd rfl h5

theorem apply_of_stages_self {s : String} {r : Replacements} (h0 : s ≠ "")
    (h : applyStages s r = .ok s.data) : apply_replacements s r = s := by
  rw [apply_replacements, if_neg h0, h]

/-! ### The claims -/

/-- C1: for every input text and ruleset, `apply_replacements` is a total
function; when any stage faults (`applyStages` returns an error), the whole
call returns the original, unmodified input — never a partially-transformed
string (at `faultyRules` the links stage would already have produced
`"y a"`, yet the faulting word stage makes the call return `"x a"`), and
when the stages succeed the fully transformed text is returned. -/
theorem c1_apply_fail_safe :
    (∀ (text : String) (r : Replacements) (e : Unit),
        applyStages text r = .error e → apply_replacements text r = text) ∧
    (∀ (text : String) (r : Replacements) (u : List Char), text ≠ "" →
        applyStages text r = .ok u → apply_replacements text r = String.mk u) ∧
    applyStages "x a" faultyRules = .error () ∧
    apply_replacements "x a" faultyRules = "x a" ∧
    runLinks faultyRules.links "x a".data = "y a".data := by
  refine ⟨?_, ?_, rfl, by decide, by decide⟩
  · intro text r e h
    rw [apply_replacements]
    split
    · rfl
    · rw [h]
  · intro text r u ht h
    rw [apply_replacements, if_neg ht, h]

/-- C1 witness: the fail-safe theorem applied at the faulting ruleset. -/
theorem c1_apply_fail_safe_witness :
    apply_replacements "x a" faultyRules = "x a" :=
  c1_apply_fail_safe.1 "x a" faultyRules () rfl

/-- C2: for every non-empty text, `apply_replacements` is exactly the links
stage, then the word stage on its output (pairs sorted by descending key
length), then the sentence stage on that output (same sort); the sort is
descending in key length; and the longer-key-precedence example holds. -/
theorem c2_stage_order :
    (∀ (t : String) (r : Replacements), t ≠ "" →
        apply_replacements t r =
          match runWords (sortByLenDesc r.words) (runLinks r.links t.data) with
          | .ok u => String.mk (runSentences r.sentences u)
          | .error _ => t) ∧
    (∀ l : List (String × String),
        (sortByLenDesc l).Pairwise fun a b => b.1.length ≤ a.1.length) ∧
    apply_replacements "hello world"
      ⟨[], [("hello", "hi"), ("hello world", "greetings")], []⟩ = "greetings" := by
  refine ⟨?_, pairwise_sortByLenDesc, by decide⟩
  intro t r ht
  rw [apply_replacements, if_neg ht, applyStages]
  cases h : runWords (sortByLenDesc r.words) (runLinks r.links t.data) <;> simp [h]

/-- C2 witness: the stage decomposition applied at a concrete input. -/
theorem c2_stage_order_witness :
    apply_replacements "ab" ⟨[], [], []⟩ =
      (match runWords (sortByLenDesc (⟨[], [], []⟩ : Replacements).words)
          (runLinks (⟨[], [], []⟩ : Replacements).links "ab".data) with
        | .ok u => String.mk (runSentences (⟨[], [], []⟩ : Replacements).sentences u)
        | .error _ => "ab") :=
  c2_stage_order.1 "ab" ⟨[], [], []⟩ (by decide)

/-- C3 counterexample: the replacement value is NOT always inserted
verbatim — the word pair `("a", "\n")` (backslash + `n`, two characters)
inserts a newline character, because `re.sub` interprets backslash escapes
in its replacement argument. -/
theorem c3_counterexample :
    apply_replacements "a" ⟨[], [("a", "\\n")], []⟩ = "\n" ∧
      ("\n" : String) ≠ "\\n" := ⟨by decide, by decide⟩

/-- C3 (amended): word replacement is whole-word and case-insensitive, and
the replacement value is inserted without case adjustment; it is inserted
verbatim whenever it contains no backslash (backslash sequences are
interpreted as `re.sub` template escapes).  `"CARPET"` is untouched by the
`car → bus` rule, while `"Car"` is matched case-insensitively and replaced
by the verbatim, non-case-adjusted `"bus"`. -/
theorem c3_word_stage_amended :
    (∀ (n matched : List Char), '\\' ∉ n →
        ∃ tmpl, parseTempl n = .ok tmpl ∧ expandTempl tmpl matched = n) ∧
    apply_replacements "The CARPET is red" ⟨[], [("car", "bus")], []⟩ =
      "The CARPET is red" ∧
    apply_replacements "The Car is red" ⟨[], [("car", "bus")], []⟩ =
      "The bus is red" := by
  refine ⟨?_, by decide, by decide⟩
  intro n matched h
  exact ⟨_, parseTempl_no_backslash h, expandTempl_map_lit n matched⟩

/-- C3 witness: a backslash-free replacement value expands verbatim. -/
theorem c3_word_stage_amended_witness :
    ∃ tmpl, parseTempl "bus".data = .ok tmpl ∧ expandTempl tmpl [] = "bus".data :=
  c3_word_stage_amended.1 "bus".data [] (by decide)

/-- C4: the decider checks its preconditions first and in order — disabled,
target unset, channel not in source set — each yielding a distinct tagged
suppression, before any replacement work; with forwarding disabled every
post is suppressed with reason `"disabled"` regardless of content. -/
theorem c4_precondition_order :
    (∀ (cfg : BotConfig) (post : Post), cfg.forwarding_enabled = false →
        handle_channel_post cfg post = .suppressed "disabled") ∧
    (∀ (cfg : BotConfig) (post : Post), cfg.forwarding_enabled = true →
        cfg.target_channel = "" →
        handle_channel_post cfg post = .suppressed "no_target") ∧
    (∀ (cfg : BotConfig) (post : Post), cfg.forwarding_enabled = true →
        cfg.target_channel ≠ "" →
        is_source_channel post.chat_id (post.chat_username.getD "")
          cfg.source_channels = false →
        handle_channel_post cfg post = .suppressed "not_source") ∧
    (("disabled" : String) ≠ "no_target" ∧ ("disabled" : String) ≠ "not_source" ∧
      ("no_target" : String) ≠ "not_source") := by
  refine ⟨?_, ?_, ?_, by decide, by decide, by decide⟩
  · intro cfg post h
    rw [handle_channel_post, if_pos h]
  · intro cfg post he ht
    rw [handle_channel_post, if_neg (by simp [he]), if_pos ht]
  · intro cfg post he ht hs
    rw [handle_channel_post, if_neg (by simp [he]), if_neg ht, if_pos hs]

/-- C4 witness: a disabled configuration suppresses a concrete post with
reason `"disabled"`. -/
theorem c4_precondition_order_witness :
    handle_channel_post disabledCfg samplePhoto = .suppressed "disabled" :=
  c4_precondition_order.1 disabledCfg samplePhoto rfl

/-- C5: the matcher strips the leading `@` sigils from each entry and
matches iff the post's numeric id equals the stripped entry literally or
the handle equals it case-insensitively, existentially over the entries
(the loop short-circuits on the first match; a missing handle is compared
as `""` and so merely fails the handle branch); `"@NewsCh"` matches handle
`"newsch"`, does not match bare id `"-100123"`, and matches it once the
literal id is also configured. -/
theorem c5_channel_matching :
    (∀ (channelId username : String) (sources : List String),
        is_source_channel channelId username sources = true ↔
          ∃ src ∈ sources, channelId = lstripAt src ∨
            lowerStr username = lowerStr (lstripAt src)) ∧
    is_source_channel "-100123" ((some "newsch").getD "") ["@NewsCh"] = true ∧
    is_source_channel "-100123" ((none : Option String).getD "") ["@NewsCh"] = false ∧
    is_source_channel "-100123" ((none : Option String).getD "")
      ["@NewsCh", "-100123"] = true := by
  refine ⟨?_, by decide, by decide, by decide⟩
  intro channelId username sources
  simp only [is_source_channel, List.any_eq_true, channelEntryMatches,
    Bool.or_eq_true, beq_iff_eq]

/-- C5 witness: the characterization applied at a concrete source list. -/
theorem c5_channel_matching_witness :
    is_source_channel "7" "User" ["@user"] = true ↔
      ∃ src ∈ ["@user"], ("7" : String) = lstripAt src ∨
        lowerStr "User" = lowerStr (lstripAt src) :=
  c5_channel_matching.1 "7" "User" ["@user"]

/-- C6: for a photo post passing all preconditions, a changed caption
yields a re-send of the photo (the file reference being the last, i.e.
largest, element of the smallest-to-largest photo array) with the new
caption, while an unchanged caption yields a verbatim copy. -/
theorem c6_photo_branch :
    ∀ (cfg : BotConfig) (post : Post),
      cfg.forwarding_enabled = true → cfg.target_channel ≠ "" →
      is_source_channel post.chat_id (post.chat_username.getD "")
        cfg.source_channels = true →
      post.photo ≠ [] →
      (apply_replacements (post.caption.getD "") cfg.replacements ≠
          post.caption.getD "" →
        handle_channel_post cfg post =
          .sendPhoto (post.photo.getLastD ⟨""⟩).file_id
            (apply_replacements (post.caption.getD "") cfg.replacements)) ∧
      (apply_replacements (post.caption.getD "") cfg.replacements =
          post.caption.getD "" →
        handle_channel_post cfg post = .copyMessage none) := by
  intro cfg post he ht hs hp
  have hh : handle_channel_post cfg post = forward_channel_message cfg post := by
    rw [handle_channel_post, if_neg (by simp [he]), if_neg ht, if_neg (by simp [hs])]
  constructor
  · intro hc
    rw [hh]
    simp only [forward_channel_message]
    rw [if_pos hp, if_pos hc]
  · intro hc
    rw [hh]
    simp only [forward_channel_message]
    rw [if_pos hp, if_neg (by simp [hc])]

/-- C6 witness: a concrete photo post whose caption changes is re-sent with
the largest photo variant and the new caption. -/
theorem c6_photo_branch_witness :
    handle_channel_post sampleCfg samplePhoto =
      .sendPhoto (samplePhoto.photo.getLastD ⟨""⟩).file_id
        (apply_replacements (samplePhoto.caption.getD "") sampleCfg.replacements) :=
  (c6_photo_branch sampleCfg samplePhoto rfl (by decide) (by decide)
    (by decide)).1 (by decide)

/-- C7: for a post passing the preconditions with no photo, video,
document, animation, and no (non-empty) text — the catch-all "other"
branch — a present and changed caption yields a verbatim copy with the new
caption as override, and every other case yields a plain verbatim copy;
the branch always produces a directive, never an error. -/
theorem c7_other_branch :
    ∀ (cfg : BotConfig) (post : Post),
      cfg.forwarding_enabled = true → cfg.target_channel ≠ "" →
      is_source_channel post.chat_id (post.chat_username.getD "")
        cfg.source_channels = true →
      post.photo = [] → post.video = none → post.document = none →
      post.animation = none → post.text.getD "" = "" →
      (post.caption.getD "" ≠ "" ∧
          apply_replacements (post.caption.getD "") cfg.replacements ≠
            post.caption.getD "" →
        handle_channel_post cfg post =
          .copyMessage
            (some (apply_replacements (post.caption.getD "") cfg.replacements))) ∧
      (¬(post.caption.getD "" ≠ "" ∧
          apply_replacements (post.caption.getD "") cfg.replacements ≠
            post.caption.getD "") →
        handle_channel_post cfg post = .copyMessage none) := by
  intro cfg post he ht hs hp hv hd ha htx
  have hh : handle_channel_post cfg post = forward_channel_message cfg post := by
    rw [handle_channel_post, if_neg (by simp [he]), if_neg ht, if_neg (by simp [hs])]
  constructor
  · intro hc
    rw [hh]
    simp only [forward_channel_message]
    rw [if_neg (by simp [hp]), if_neg (by simp [hv]), if_neg (by simp [hd]),
      if_neg (by simp [ha]), if_neg (by simp [htx]), if_pos hc]
  · intro hc
    rw [hh]
    simp only [forward_channel_message]
    rw [if_neg (by simp [hp]), if_neg (by simp [hv]), if_neg (by simp [hd]),
      if_neg (by simp [ha]), if_neg (by simp [htx]), if_neg hc]

/-- C7 witness: a concrete sticker-like post whose caption changes is
copied with the new caption as override. -/
theorem c7_other_branch_witness :
    handle_channel_post sampleCfg sampleSticker =
      .copyMessage
        (some (apply_replacements (sampleSticker.caption.getD "")
          sampleCfg.replacements)) :=
  (c7_other_branch sampleCfg sampleSticker rfl (by decide) (by decide) rfl rfl
    rfl rfl (by decide)).1 (by decide)

/-- C8: when the once-transformed text contains no further occurrence of
any link or sentence key and no whole-word case-insensitive match of any
word key, applying the ruleset a second time is the identity:
`apply(apply(t, r), r) = apply(t, r)`. -/
theorem c8_idempotent :
    ∀ (t : String) (r : Replacements),
      (∀ p ∈ r.links, containsL p.1.data (apply_replacements t r).data = false) →
      (∀ p ∈ r.words, hasWordMatch p.1.data (apply_replacements t r).data = false) →
      (∀ p ∈ r.sentences, containsL p.1.data (apply_replacements t r).data = false) →
      apply_replacements (apply_replacements t r) r = apply_replacements t r := by
  intro t r hl hw hs
  by_cases ht : t = ""
  · subst ht; rfl
  by_cases ht' : apply_replacements t r = ""
  · rw [ht']; rfl
  cases hstage : applyStages t r with
  | error e =>
    have htt : apply_replacements t r = t := by
      rw [apply_replacements, if_neg ht, hstage]
    rw [htt]
    exact htt
  | ok u =>
    have hparse : ∀ p ∈ sortByLenDesc r.words,
        ∃ tmpl, parseTempl p.2.data = .ok tmpl := by
      rw [applyStages] at hstage
      cases hrw : runWords (sortByLenDesc r.words) (runLinks r.links t.data) with
      | error e => rw [hrw] at hstage; simp at hstage
      | ok w => exact runWords_ok_tmpl hrw
    have hwords : runWords (sortByLenDesc r.words) (apply_replacements t r).data =
        .ok (apply_replacements t r).data :=
      runWords_id hparse fun p hp => hw p (mem_sortByLenDesc.mp hp)
    have hstage' : applyStages (apply_replacements t r) r =
        .ok (apply_replacements t r).data := by
      rw [applyStages, runLinks_id hl, hwords]
      show Except.ok (runSentences r.sentences (apply_replacements t r).data) =
        Except.ok (apply_replacements t r).data
      rw [runSentences_id hs]
    exact apply_of_stages_self ht' hstage'

/-- C8 witness: idempotence at a concrete text and ruleset whose output
re-triggers no key. -/
theorem c8_idempotent_witness :
    apply_replacements (apply_replacements "hello world" wordRules) wordRules =
      apply_replacements "hello world" wordRules :=
  c8_idempotent "hello world" wordRules (by decide) (by decide) (by decide)

/-- C9: a configured entry consisting only of `@` characters (the bare
`"@"` is addable, stored by `cmd_add_channel` as the empty string) strips
to the empty string, and such an entry matches every post whose channel has
no handle, because the missing handle is compared as `""`. -/
theorem c9_all_at_entry :
    (∀ s : String, (∀ c ∈ s.data, c = '@') → lstripAt s = "") ∧
    lstripAt (add_channel_normalize "@") = "" ∧
    (∀ (channelId : String) (handle : Option String), handle = none →
        is_source_channel channelId (handle.getD "")
          [add_channel_normalize "@"] = true) := by
  refine ⟨?_, by decide, ?_⟩
  · intro s hall
    have hdrop : s.data.dropWhile (· = '@') = [] :=
      List.dropWhile_eq_nil_iff.mpr fun x hx => by simp [hall x hx]
    rw [lstripAt, hdrop]
  · intro channelId handle hh
    subst hh
    have h0 : lstripAt (add_channel_normalize "@") = "" := by decide
    simp [is_source_channel, channelEntryMatches, h0]

/-- C9 witness: an all-`@` entry strips to empty and a handle-less post
matches the configuration produced by adding `"@"`. -/
theorem c9_all_at_entry_witness :
    lstripAt "@@@" = "" ∧
      is_source_channel "-5" ((none : Option String).getD "")
        [add_channel_normalize "@"] = true :=
  ⟨c9_all_at_entry.1 "@@@" (by decide), c9_all_at_entry.2.2 "-5" none rfl⟩

/-- C10: a word key whose last character is a non-word character can only
match when a word character immediately follows the match — so it never
matches at end of input or before whitespace/punctuation; in particular the
rule `c++ → x` leaves `"c++"` (end of input) and `"a c++ b"` (before a
space) unchanged. -/
theorem c10_trailing_nonword :
    (∀ (old : List Char) (prev : Option Char) (s : List Char) (c : Char),
        old.getLast? = some c → isWordChar c = false →
        wordMatchAt old prev s = true →
        ∃ d, (s.drop old.length).head? = some d ∧ isWordChar d = true) ∧
    apply_replacements "c++" ⟨[], [("c++", "x")], []⟩ = "c++" ∧
    apply_replacements "a c++ b" ⟨[], [("c++", "x")], []⟩ = "a c++ b" := by
  refine ⟨fun old prev s c h1 h2 h3 => wordMatchAt_trailing h1 h2 h3,
    by decide, by decide⟩

/-- C10 witness: at the key `"c+"` matching inside `"c+x"`, the character
after the match is the word character `x`. -/
theorem c10_trailing_nonword_witness :
    ∃ d, ("c+x".data.drop "c+".data.length).head? = some d ∧ isWordChar d = true :=
  c10_trailing_nonword.1 "c+".data none "c+x".data '+' (by decide) (by decide)
    (by decide)

end Forwarder
